import Mathlib

/-!
Shallow embedding of the `currency` formatting engine (`formatter.go`) and
verification of its specification.  Rendered text is modelled as `List Char`
(one entry per rune; all sliced text in the engine is ASCII, where Go's
byte-oriented slicing agrees with rune-oriented slicing).  Go collaborators
that live outside the formatter (`Locale`, `Amount`, the locale format table,
currency metadata) are either modelled from the spec or abstracted as
parameters of a `Collab` structure, so theorems quantify over all
collaborator behaviours.
-/

set_option maxHeartbeats 1000000

namespace Currency

/-- Rendered text: one `Char` per rune. -/
abbrev Str := List Char

/-- Convert a Lean string literal to the `Str` model. -/
def str (s : String) : Str := s.data

/-- Fuelled decimal printer for naturals, mirroring `strconv.Itoa` for
non-negative inputs (most significant digit first, no leading zeroes,
`0` printed as `"0"`).  The fuel argument only makes the recursion
structural; `natToDigits` supplies enough fuel for it never to run out. -/
def natToDigitsGo : Nat → Nat → Str
  | 0, _ => []
  | fuel + 1, n => if n < 10 then [Nat.digitChar n]
      else natToDigitsGo fuel (n / 10) ++ [Nat.digitChar (n % 10)]

/-- Decimal representation of a natural number, most significant digit first. -/
def natToDigits (n : Nat) : Str := natToDigitsGo (n + 1) n

/-- Exactly `width` decimal digits of `n`, zero-padded on the left
(the fixed-width fractional digits of a fixed-point decimal). -/
def fixedDigits (n : Nat) : Nat → Str
  | 0 => []
  | width + 1 => fixedDigits (n / 10) width ++ [Nat.digitChar (n % 10)]

/-- Go `strings.TrimRight(s, "0")`: remove the trailing run of `'0'` runes. -/
def trimTrailingZeros (s : Str) : Str :=
  (s.reverse.dropWhile (fun ch => ch == '0')).reverse

/-- Go slice expression `s[low:high]` (on ASCII text, where bytes = runes). -/
def goSlice (s : Str) (low high : Nat) : Str := (s.take high).drop low

/-- Checked Go slice `s[low:high]`: `none` exactly when Go would panic
with an out-of-range slice access. -/
def goSliceChecked (s : Str) (low high : Nat) : Option Str :=
  if low ≤ high ∧ high ≤ s.length then some (goSlice s low high) else none

/-- Go `unicode.IsSpace`: the white-space runes recognised by
`strings.TrimSpace`. -/
def isSpaceChar (ch : Char) : Bool :=
  ch == ' ' || ch == '\t' || ch == '\n' || ch == '\x0b' || ch == '\x0c' ||
  ch == '\r' || ch == '\u0085' || ch == ' ' || ch == ' ' ||
  (' ' ≤ ch && ch ≤ ' ') || ch == ' ' || ch == ' ' ||
  ch == ' ' || ch == ' ' || ch == '　'

/-- Go `strings.TrimSpace`: drop leading and trailing white space. -/
def trimSpace (s : Str) : Str :=
  ((s.dropWhile isSpaceChar).reverse.dropWhile isSpaceChar).reverse

/-- First replacement pair whose (non-empty) pattern is a prefix of `s`;
this is the match rule of Go's `strings.NewReplacer(...).Replace`, which
tries the old/new pairs in argument order at each position. -/
def findRep (pairs : List (Str × Str)) (s : Str) : Option (Str × Str) :=
  pairs.find? (fun pr => !pr.1.isEmpty && pr.1.isPrefixOf s)

/-- Fuelled core of `strings.Replacer.Replace`: scan left to right, replace
the first matching pattern and continue after the match, never rescanning
replacement text.  Each step consumes at least one rune, so fuel equal to
the input length (supplied by `replaceMulti`) never runs out. -/
def replaceMultiGo (pairs : List (Str × Str)) : Nat → Str → Str
  | 0, s => s
  | _ + 1, [] => []
  | fuel + 1, ch :: rest =>
    match findRep pairs (ch :: rest) with
    | some pr => pr.2 ++ replaceMultiGo pairs fuel ((ch :: rest).drop pr.1.length)
    | none => ch :: replaceMultiGo pairs fuel rest

/-- Go `strings.NewReplacer(pairs...).Replace(s)`. -/
def replaceMulti (pairs : List (Str × Str)) (s : Str) : Str :=
  replaceMultiGo pairs s.length s

/-- Modelled from the spec: the `Locale` collaborator (not under `src/`):
a language/region pair with a parent-chain walk (region-qualified locale
falls back to the language-only locale, which falls back to the empty
root locale), a canonical string identifier, and equality. -/
structure Locale where
  Language : Str := []
  Region : Str := []
deriving DecidableEq

/-- Modelled from the spec: `Locale.IsEmpty`. -/
def Locale.IsEmpty (l : Locale) : Bool := l.Language.isEmpty && l.Region.isEmpty

/-- Modelled from the spec: `Locale.GetParent` — drop the region if present,
otherwise fall back to the empty root locale. -/
def Locale.GetParent (l : Locale) : Locale :=
  if l.Region.isEmpty then {} else { Language := l.Language }

/-- Modelled from the spec: `Locale.String()` — the canonical identifier,
subtags joined with `'-'`. -/
def Locale.ident (l : Locale) : Str :=
  l.Language ++ (if l.Region.isEmpty then [] else '-' :: l.Region)

/-- The numbering systems of the locale data (`numberingSystem` in the repo). -/
inductive numberingSystem where
  | numLatn | numArab | numArabExt | numBeng | numDeva | numMymr | numTibt
deriving DecidableEq

export numberingSystem (numLatn numArab numArabExt numBeng numDeva numMymr numTibt)

/-- The `localDigits` table of `formatter.go`: ten digit glyphs per
non-Western numbering system (`numLatn` has no entry in the Go map). -/
def localDigits : numberingSystem → Option Str
  | numArab => some (str "٠١٢٣٤٥٦٧٨٩")
  | numArabExt => some (str "۰۱۲۳۴۵۶۷۸۹")
  | numBeng => some (str "০১২৩৪৫৬৭৮৯")
  | numDeva => some (str "०१२३४५६७८९")
  | numMymr => some (str "၀၁၂၃၄၅၆၇၈၉")
  | numTibt => some (str "༠༡༢༣༤༥༦༧༨༩")
  | numLatn => none

/-- The per-locale `currencyFormat` rule set (field names as in the repo);
the default field values are the Go zero values, giving the zero-value
rule set bound on an unresolved locale. -/
structure currencyFormat where
  pattern : Str := []
  decimalSeparator : Str := []
  groupingSeparator : Str := []
  plusSign : Str := []
  minusSign : Str := []
  minGroupingDigits : Nat := 0
  primaryGroupingSize : Nat := 0
  secondaryGroupingSize : Nat := 0
  numberingSystem : numberingSystem := numLatn
deriving DecidableEq

/-- Display type (a Go `uint8`): how the currency is displayed.  Modelled as a
bare `Nat` so that out-of-range values can be stated. -/
abbrev Display := Nat

/-- Mode `DisplaySymbol` shows the currency symbol. -/
def DisplaySymbol : Display := 0
/-- Mode `DisplayCode` shows the currency code. -/
def DisplayCode : Display := 1
/-- Mode `DisplayNone` shows nothing, hiding the currency. -/
def DisplayNone : Display := 2

/-- Sentinel `DefaultDigits`: the placeholder standing for "use the currency's default
number of fraction digits". -/
def DefaultDigits : Nat := 255

/-- Modelled from the spec: the `Amount` collaborator (not under `src/`):
an arbitrary-precision fixed-point decimal (value `number / 10 ^ scale`)
bound to a currency code. -/
structure Amount where
  number : Int
  scale : Nat
  currencyCode : Str
deriving DecidableEq

/-- Modelled from the spec: `Amount.IsNegative()`. -/
def Amount.IsNegative (a : Amount) : Bool := a.number < 0

/-- Modelled from the spec: `amount.Mul("-1")` — negation; the currency
code is unchanged. -/
def Amount.MulNegOne (a : Amount) : Amount := { a with number := -a.number }

/-- Modelled from the spec: `Amount.RoundTo(digits)` — round half away from
zero to exactly `digits` fraction digits (the decimal string after rounding
carries exactly the requested number of fraction digits). -/
def Amount.RoundTo (a : Amount) (digits : Nat) : Amount :=
  if a.scale ≤ digits then
    { a with number := a.number * 10 ^ (digits - a.scale), scale := digits }
  else
    let p := 10 ^ (a.scale - digits)
    let m := (2 * a.number.natAbs + p) / (2 * p)
    { number := if a.number < 0 then -(m : Int) else (m : Int),
      scale := digits, currencyCode := a.currencyCode }

/-- The sign and integer-part digits of the amount's decimal string. -/
def Amount.intDigits (a : Amount) : Str :=
  (if a.number < 0 then ['-'] else []) ++ natToDigits (a.number.natAbs / 10 ^ a.scale)

/-- The fractional-part digits of the amount's decimal string
(exactly `a.scale` digits). -/
def Amount.fracDigits (a : Amount) : Str :=
  fixedDigits (a.number.natAbs % 10 ^ a.scale) a.scale

/-- Modelled from the spec: `Amount.Number()` — the plain decimal string,
with a fractional part exactly when the scale is non-zero. -/
def Amount.Number (a : Amount) : Str :=
  a.intDigits ++ (if a.scale = 0 then [] else '.' :: a.fracDigits)

/-- The collaborator surface consumed by the formatter: currency metadata
(`GetDigits`, `GetSymbol`) and the locale format table (`currencyFormats`),
all abstracted as pure lookup functions. -/
structure Collab where
  GetDigits : Str → Nat × Bool
  GetSymbol : Str → Locale → Str × Bool
  currencyFormats : Str → Option currencyFormat

/-- Structure `Formatter` formats currency amounts (fields as in `formatter.go`;
`SymbolMap` is a Go map, modelled as a partial lookup function). -/
structure Formatter where
  locale : Locale
  format : currencyFormat
  NoGrouping : Bool
  MinDigits : Nat
  MaxDigits : Nat
  CurrencyDisplay : Display
  SymbolMap : Str → Option Str

/-- The locale `en-US`. -/
def enUSLocale : Locale := { Language := str "en", Region := str "US" }

/-- The locale `en`. -/
def enLocale : Locale := { Language := str "en" }

/-- The CLDR `en`/`en-US` normalization performed at the top of the
constructor's lookup loop. -/
def normalizeEnUS (l : Locale) : Locale := if l = enUSLocale then enLocale else l

/-- The constructor's fallback loop: look the (normalized) locale up in the
format table; on a miss walk to the parent and retry; stop with the
zero-value rule set when the parent chain goes empty.  The fuel argument
only makes the recursion structural; the chain stabilizes after at most two
steps, so any fuel of at least 3 gives the loop's exact behaviour
(`resolveFormatGo_fuel` below). -/
def resolveFormatGo (c : Collab) : Nat → Locale → currencyFormat
  | 0, _ => {}
  | fuel + 1, locale =>
    let l := normalizeEnUS locale
    match c.currencyFormats l.ident with
    | some format => format
    | none => if l.GetParent.IsEmpty then {} else resolveFormatGo c fuel l.GetParent

/-- Constructor `NewFormatter` creates a new formatter for the given locale. -/
def NewFormatter (c : Collab) (locale : Locale) : Formatter :=
  { locale := locale
    format := resolveFormatGo c 3 locale
    NoGrouping := false
    MinDigits := DefaultDigits
    MaxDigits := 6
    CurrencyDisplay := DisplaySymbol
    SymbolMap := fun _ => none }

/-- Accessor `Formatter.Locale()` returns the locale. -/
def Formatter.Locale (f : Formatter) : Locale := f.locale

/-- Method `getPattern` returns a positive or negative pattern for a currency
amount. -/
def Formatter.getPattern (f : Formatter) (amount : Amount) : Str :=
  let patterns := f.format.pattern.splitOn ';'
  if amount.IsNegative then
    if patterns.length = 1 then '-' :: patterns.getD 0 []
    else patterns.getD 1 []
  else patterns.getD 0 []

/-- Bounds-checked `getPattern`: list indexing via `get?`, `none` exactly
when Go would panic with an index out of range. -/
def Formatter.getPatternChecked (f : Formatter) (amount : Amount) : Option Str :=
  let patterns := f.format.pattern.splitOn ';'
  if amount.IsNegative then
    if patterns.length = 1 then (patterns.get? 0).map (fun p => '-' :: p)
    else patterns.get? 1
  else patterns.get? 0

/-- Method `formatCurrency` formats the currency for display. -/
def Formatter.formatCurrency (c : Collab) (f : Formatter) (currencyCode : Str) : Str :=
  if f.CurrencyDisplay = DisplaySymbol then
    match f.SymbolMap currencyCode with
    | some symbol => symbol
    | none => (c.GetSymbol currencyCode f.locale).1
  else if f.CurrencyDisplay = DisplayCode then currencyCode
  else []

/-- The secondary-group loop of `groupMajorDigits`: starting at index `i`
(the right edge of the next group), repeatedly slice off
`sec` digits moving leftward while the index is positive (Go's negative
lower bound clamped to zero coincides with truncated `Nat` subtraction).
The fuel argument only makes the recursion structural; `groupMajorDigits`
passes the digit count, which suffices whenever `sec ≥ 1`. -/
def secondaryGroups (s : Str) (sec : Nat) : Nat → Nat → List Str
  | 0, _ => []
  | fuel + 1, i =>
    if 0 < i then goSlice s (i - sec) i :: secondaryGroups s sec fuel (i - sec)
    else []

/-- Completion-aware variant of `secondaryGroups`: `none` when the fuel is
exhausted with the loop still running — so `∀ fuel, ... = none` states that
Go's loop never terminates. -/
def secondaryGroupsO (s : Str) (sec : Nat) : Nat → Nat → Option (List Str)
  | 0, i => if 0 < i then none else some []
  | fuel + 1, i =>
    if 0 < i then
      (secondaryGroupsO s sec fuel (i - sec)).map (goSlice s (i - sec) i :: ·)
    else some []

/-- Bounds-checked variant of `secondaryGroups`: `none` exactly when some
iteration's slice would be out of range in Go (fuel exhaustion returns the
groups collected so far, as in `secondaryGroups`). -/
def secondaryGroupsChecked (s : Str) (sec : Nat) : Nat → Nat → Option (List Str)
  | 0, _ => some []
  | fuel + 1, i =>
    if 0 < i then
      match goSliceChecked s (i - sec) i with
      | some g => (secondaryGroupsChecked s sec fuel (i - sec)).map (g :: ·)
      | none => none
    else some []

/-- Method `groupMajorDigits` groups major digits according to the currency
format. -/
def Formatter.groupMajorDigits (f : Formatter) (majorDigits : Str) : Str :=
  if f.NoGrouping || f.format.primaryGroupingSize == 0 then majorDigits
  else
    let numDigits := majorDigits.length
    let minDigits := f.format.minGroupingDigits
    let primarySize := f.format.primaryGroupingSize
    let secondarySize := f.format.secondaryGroupingSize
    if numDigits < minDigits + primarySize then majorDigits
    else
      let groups := goSlice majorDigits (numDigits - primarySize) numDigits ::
        secondaryGroups majorDigits secondarySize numDigits (numDigits - primarySize)
      List.intercalate f.format.groupingSeparator groups.reverse

/-- Bounds-checked `groupMajorDigits`: every Go slice checked, `none`
exactly when some slice would be out of range. -/
def Formatter.groupMajorDigitsChecked (f : Formatter) (majorDigits : Str) : Option Str :=
  if f.NoGrouping || f.format.primaryGroupingSize == 0 then some majorDigits
  else
    let numDigits := majorDigits.length
    let minDigits := f.format.minGroupingDigits
    let primarySize := f.format.primaryGroupingSize
    let secondarySize := f.format.secondaryGroupingSize
    if numDigits < minDigits + primarySize then some majorDigits
    else
      match goSliceChecked majorDigits (numDigits - primarySize) numDigits with
      | none => none
      | some first =>
        (secondaryGroupsChecked majorDigits secondarySize numDigits
            (numDigits - primarySize)).map
          (fun rest => List.intercalate f.format.groupingSeparator (first :: rest).reverse)

/-- The replacement pairs of `localizeDigits`: `strconv.Itoa(i)` mapped to
the `i`-th glyph of the numbering system's digit string. -/
def digitReplacements (glyphs : Str) : List (Str × Str) :=
  glyphs.enum.map (fun p => (natToDigits p.1, [p.2]))

/-- Method `localizeDigits` replaces digits with their localized equivalents. -/
def Formatter.localizeDigits (f : Formatter) (number : Str) : Str :=
  if f.format.numberingSystem = numLatn then number
  else
    let digits := (localDigits f.format.numberingSystem).getD []
    replaceMulti (digitReplacements digits) number

/-- Method `formatNumber` formats the number for display. -/
def Formatter.formatNumber (c : Collab) (f : Formatter) (amount : Amount) : Str :=
  let minDigits := if f.MinDigits = DefaultDigits
    then (c.GetDigits amount.currencyCode).1 else f.MinDigits
  let maxDigits := if f.MaxDigits = DefaultDigits
    then (c.GetDigits amount.currencyCode).1 else f.MaxDigits
  let amount := amount.RoundTo maxDigits
  let numberParts := amount.Number.splitOn '.'
  let numberParts := if numberParts.length = 1 then numberParts ++ [[]] else numberParts
  let majorDigits := f.groupMajorDigits (numberParts.getD 0 [])
  let minorDigits := numberParts.getD 1 []
  let minorDigits :=
    if minDigits < maxDigits then
      let stripped := trimTrailingZeros minorDigits
      if stripped.length < minDigits then
        stripped ++ List.replicate (minDigits - stripped.length) '0'
      else stripped
    else minorDigits
  f.localizeDigits
    (majorDigits ++ if minorDigits = [] then [] else f.format.decimalSeparator ++ minorDigits)

/-- The pattern-substitution tail of `Format`: build the replacer with the
formatted number, formatted currency and sign glyphs, apply it to the chosen
sub-pattern, and trim surrounding white space when the formatted currency is
empty. -/
def Formatter.renderPattern (f : Formatter) (pattern num cur : Str) : Str :=
  let replaced := replaceMulti
    [(str "0.00", num), (str "¤", cur), (str "+", f.format.plusSign),
      (str "-", f.format.minusSign)] pattern
  if cur = [] then trimSpace replaced else replaced

/-- Method `Format` formats a currency amount. -/
def Formatter.Format (c : Collab) (f : Formatter) (amount : Amount) : Str :=
  let pattern := f.getPattern amount
  let amount := if amount.IsNegative then amount.MulNegOne else amount
  let formattedNumber := f.formatNumber c amount
  let formattedCurrency := f.formatCurrency c amount.currencyCode
  f.renderPattern pattern formattedNumber formattedCurrency

/-- The effective minimum fraction digits of a render:
the currency's default count when `MinDigits` is the sentinel. -/
def effMinDigits (c : Collab) (f : Formatter) (a : Amount) : Nat :=
  if f.MinDigits = DefaultDigits then (c.GetDigits a.currencyCode).1 else f.MinDigits

/-- The effective maximum fraction digits of a render:
the currency's default count when `MaxDigits` is the sentinel. -/
def effMaxDigits (c : Collab) (f : Formatter) (a : Amount) : Nat :=
  if f.MaxDigits = DefaultDigits then (c.GetDigits a.currencyCode).1 else f.MaxDigits

/-- The fractional part the spec claims for a render: the rounded
fractional digits, stripped of trailing zeroes and re-padded to the
effective min when effective min < effective max, otherwise left exactly
as rounded. -/
def minorDigitsSpec (c : Collab) (f : Formatter) (a : Amount) : Str :=
  if effMinDigits c f a < effMaxDigits c f a then
    (let t := trimTrailingZeros (a.RoundTo (effMaxDigits c f a)).fracDigits
     if t.length < effMinDigits c f a then
       t ++ List.replicate (effMinDigits c f a - t.length) '0'
     else t)
  else (a.RoundTo (effMaxDigits c f a)).fracDigits

/-- A demo rule set in the style of the `en` locale data, used to exercise
the engine on concrete inputs. -/
def usdFormat : currencyFormat :=
  { pattern := str "\u00a4" ++ str "0.00;(" ++ str "\u00a4" ++ str "0.00)"
    decimalSeparator := str "."
    groupingSeparator := str ","
    plusSign := str "+"
    minusSign := str "-"
    minGroupingDigits := 1
    primaryGroupingSize := 3
    secondaryGroupingSize := 3
    numberingSystem := numLatn }

/-- Demo collaborator data: USD-style metadata and a format table binding
only the `en` identifier. -/
def demoCollab : Collab :=
  { GetDigits := fun _ => (2, true)
    GetSymbol := fun _ _ => (str "$", true)
    currencyFormats := fun id => if id = str "en" then some usdFormat else none }

/-- Collaborator data whose format table is empty. -/
def emptyCollab : Collab :=
  { GetDigits := fun _ => (0, false)
    GetSymbol := fun _ _ => ([], false)
    currencyFormats := fun _ => none }

/-- A demo formatter bound to the demo rule set with default options. -/
def demoFormatter : Formatter :=
  { locale := enUSLocale
    format := usdFormat
    NoGrouping := false
    MinDigits := DefaultDigits
    MaxDigits := 6
    CurrencyDisplay := DisplaySymbol
    SymbolMap := fun _ => none }

/-- The demo formatter with `MinDigits = 0` and `MaxDigits = 2`. -/
def trimFormatter : Formatter := { demoFormatter with MinDigits := 0, MaxDigits := 2 }

/-- The demo formatter in display mode `none`. -/
def noneFormatter : Formatter := { demoFormatter with CurrencyDisplay := DisplayNone }

/-- The demo formatter with the Devanagari numbering system. -/
def devaFormatter : Formatter :=
  { demoFormatter with format := { usdFormat with numberingSystem := numDeva } }

/-- The demo amount 1234.50 USD. -/
def demoAmount : Amount := { number := 123450, scale := 2, currencyCode := str "USD" }

/-- The demo amount 10.00 USD. -/
def demoTen : Amount := { number := 1000, scale := 2, currencyCode := str "USD" }

/-- A demo rule set in the style of the `fr` locale data. -/
def frFormat : currencyFormat :=
  { pattern := str "0.00" ++ str " ¤"
    decimalSeparator := str ","
    groupingSeparator := str " "
    plusSign := str "+"
    minusSign := str "-"
    minGroupingDigits := 1
    primaryGroupingSize := 3
    secondaryGroupingSize := 3
    numberingSystem := numLatn }

/-- Demo collaborator data whose format table binds only the `fr`
identifier, so a `fr-FR` request must fall back to its parent. -/
def frCollab : Collab :=
  { GetDigits := fun _ => (2, true)
    GetSymbol := fun _ _ => (str "€", true)
    currencyFormats := fun id => if id = str "fr" then some frFormat else none }

/-- The locale `fr-FR`. -/
def frFRLocale : Locale := { Language := str "fr", Region := str "FR" }

/-! ### Basic facts about the digit printers -/

theorem mem_natToDigitsGo {fuel n : Nat} {ch : Char} (h : ch ∈ natToDigitsGo fuel n) :
    ∃ d, d < 10 ∧ ch = Nat.digitChar d := by
  induction fuel generalizing n with
  | zero => simp [natToDigitsGo] at h
  | succ fuel ih =>
    unfold natToDigitsGo at h
    split at h
    · simp only [List.mem_singleton] at h
      exact ⟨n, by omega, h⟩
    · rcases List.mem_append.1 h with h | h
      · exact ih h
      · simp only [List.mem_singleton] at h
        exact ⟨n % 10, Nat.mod_lt _ (by omega), h⟩

theorem mem_natToDigits {n : Nat} {ch : Char} (h : ch ∈ natToDigits n) :
    ∃ d, d < 10 ∧ ch = Nat.digitChar d := mem_natToDigitsGo h

theorem mem_fixedDigits {w n : Nat} {ch : Char} (h : ch ∈ fixedDigits n w) :
    ∃ d, d < 10 ∧ ch = Nat.digitChar d := by
  induction w generalizing n with
  | zero => simp [fixedDigits] at h
  | succ w ih =>
    unfold fixedDigits at h
    rcases List.mem_append.1 h with h | h
    · exact ih h
    · simp only [List.mem_singleton] at h
      exact ⟨n % 10, Nat.mod_lt _ (by omega), h⟩

theorem fixedDigits_length (n w : Nat) : (fixedDigits n w).length = w := by
  induction w generalizing n with
  | zero => rfl
  | succ w ih => simp [fixedDigits, ih]

theorem digitChar_ne_dot {d : Nat} (h : d < 10) : Nat.digitChar d ≠ '.' := by
  interval_cases d <;> decide

theorem dot_not_mem_intDigits (a : Amount) : '.' ∉ a.intDigits := by
  intro h
  rcases List.mem_append.1 h with h | h
  · split at h <;> simp_all
  · obtain ⟨d, hd, h⟩ := mem_natToDigits h
    exact digitChar_ne_dot hd h.symm

theorem dot_not_mem_fracDigits (a : Amount) : '.' ∉ a.fracDigits := by
  intro h
  obtain ⟨d, hd, h⟩ := mem_fixedDigits h
  exact digitChar_ne_dot hd h.symm

/-! ### Go slices and the grouping loop -/

theorem goSlice_length {s : Str} {i : Nat} (low : Nat) (hi : i ≤ s.length) :
    (goSlice s low i).length = i - low := by
  simp [goSlice]
  omega

theorem secondaryGroups_fuel_zero_index (s : Str) (sec fuel : Nat) :
    secondaryGroups s sec fuel 0 = [] := by
  cases fuel <;> simp [secondaryGroups]

/-- The grouping-loop invariant: starting from right edge `i`, the loop
produces groups which, read left to right, concatenate to the first `i`
characters; every group except the leftmost has exactly `sec` characters
and the leftmost has between 1 and `sec`. -/
theorem secondaryGroups_spec (s : Str) (sec : Nat) (hsec : 1 ≤ sec) :
    ∀ fuel i, i ≤ fuel → i ≤ s.length →
      (secondaryGroups s sec fuel i).reverse.flatten = s.take i ∧
      (∀ g ∈ (secondaryGroups s sec fuel i).dropLast, g.length = sec) ∧
      (∀ g, (secondaryGroups s sec fuel i).getLast? = some g →
        1 ≤ g.length ∧ g.length ≤ sec) ∧
      (0 < i → secondaryGroups s sec fuel i ≠ []) := by
  intro fuel
  induction fuel with
  | zero =>
    intro i hfuel _
    have : i = 0 := by omega
    subst this
    simp [secondaryGroups]
  | succ fuel ih =>
    intro i hfuel hlen
    by_cases hi : 0 < i
    · have hgs : secondaryGroups s sec (fuel + 1) i =
          goSlice s (i - sec) i :: secondaryGroups s sec fuel (i - sec) := by
        simp [secondaryGroups, hi]
      have hglen : (goSlice s (i - sec) i).length = i - (i - sec) :=
        goSlice_length _ hlen
      by_cases hsmall : i ≤ sec
      · have hz : i - sec = 0 := by omega
        have hglen0 : (goSlice s 0 i).length = i := by
          have := goSlice_length (s := s) (i := i) 0 hlen
          omega
        rw [hgs, hz, secondaryGroups_fuel_zero_index]
        refine ⟨?_, by simp, ?_, by simp⟩
        · simp [goSlice]
        · intro g hg
          simp only [List.getLast?_singleton, Option.some.injEq] at hg
          subst hg
          constructor <;> omega
      · obtain ⟨ihA, ihB, ihC, ihD⟩ := ih (i - sec) (by omega) (by omega)
        have hne : secondaryGroups s sec fuel (i - sec) ≠ [] := ihD (by omega)
        obtain ⟨r, t, hrt⟩ := List.exists_cons_of_ne_nil hne
        refine ⟨?_, ?_, ?_, by simp [hgs]⟩
        · rw [hgs]
          simp only [List.reverse_cons, List.flatten_append, ihA]
          show s.take (i - sec) ++ (goSlice s (i - sec) i ++ []) = s.take i
          rw [List.append_nil, goSlice]
          have h1 : s.take (i - sec) = (s.take i).take (i - sec) := by
            rw [List.take_take]
            congr 1
            omega
          rw [h1, List.take_append_drop]
        · intro g hg
          rw [hgs, hrt, List.dropLast_cons₂, ← hrt] at hg
          rcases List.mem_cons.1 hg with hg | hg
          · subst hg
            omega
          · exact ihB g hg
        · intro g hg
          rw [hgs, hrt, List.getLast?_cons_cons, ← hrt] at hg
          exact ihC g hg
    · have : i = 0 := by omega
      subst this
      simp [secondaryGroups_fuel_zero_index]

/-! ### Bounds-checked variants always succeed (C9 infrastructure) -/

theorem splitOn_length_pos (c : Char) (s : Str) : 0 < (s.splitOn c).length :=
  List.length_pos.2 (List.splitOnP_ne_nil _ s)

theorem secondaryGroupsChecked_eq (s : Str) (sec : Nat) :
    ∀ fuel i, i ≤ s.length →
      secondaryGroupsChecked s sec fuel i = some (secondaryGroups s sec fuel i) := by
  intro fuel
  induction fuel with
  | zero => intro i _; simp [secondaryGroupsChecked, secondaryGroups]
  | succ fuel ih =>
    intro i hlen
    by_cases hi : 0 < i
    · have hslice : goSliceChecked s (i - sec) i = some (goSlice s (i - sec) i) := by
        rw [goSliceChecked, if_pos ⟨by omega, hlen⟩]
      simp [secondaryGroupsChecked, secondaryGroups, hi, hslice, ih (i - sec) (by omega)]
    · simp [secondaryGroupsChecked, secondaryGroups, hi]

theorem getPatternChecked_eq (f : Formatter) (a : Amount) :
    f.getPatternChecked a = some (f.getPattern a) := by
  have hnil : f.format.pattern.splitOn ';' ≠ [] :=
    List.splitOnP_ne_nil (· == ';') f.format.pattern
  obtain ⟨p0, t, hsplit⟩ := List.exists_cons_of_ne_nil hnil
  simp only [Formatter.getPatternChecked, Formatter.getPattern, hsplit]
  by_cases hneg : a.IsNegative
  · by_cases hlen : (p0 :: t).length = 1
    · simp [hneg, hlen]
    · obtain ⟨p1, t2, ht⟩ : ∃ p1 t2, t = p1 :: t2 := by
        cases t with
        | nil => simp at hlen
        | cons p1 t2 => exact ⟨p1, t2, rfl⟩
      subst ht
      simp [hneg, hlen]
  · simp [hneg]

theorem groupMajorDigitsChecked_eq (f : Formatter) (s : Str) :
    f.groupMajorDigitsChecked s = some (f.groupMajorDigits s) := by
  rw [Formatter.groupMajorDigitsChecked, Formatter.groupMajorDigits]
  by_cases hoff : (f.NoGrouping || f.format.primaryGroupingSize == 0) = true
  · simp [hoff]
  · simp only [hoff, if_false]
    by_cases hshort :
        s.length < f.format.minGroupingDigits + f.format.primaryGroupingSize
    · simp [hshort]
    · have hslice :
          goSliceChecked s (s.length - f.format.primaryGroupingSize) s.length =
            some (goSlice s (s.length - f.format.primaryGroupingSize) s.length) := by
        rw [goSliceChecked, if_pos ⟨Nat.sub_le _ _, Nat.le_refl _⟩]
      simp [hshort, hslice,
        secondaryGroupsChecked_eq s f.format.secondaryGroupingSize s.length
          (s.length - f.format.primaryGroupingSize) (Nat.sub_le _ _)]

/-- **C9.** Every string index and slice taken during a render is in bounds:
the bounds-checked variants of `getPattern` (which reads the second
sub-pattern only when splitting on the delimiter yields more than one piece)
and of `groupMajorDigits` (which slices from `length - primaryGroupingSize`
only once the length is at least `minGroupingDigits + primaryGroupingSize`,
with the loop's lower bound clamped at zero) succeed on every input,
returning exactly the unchecked results — no render can fail on an
out-of-range string access. -/
theorem render_accesses_in_bounds (f : Formatter) (a : Amount) (s : Str) :
    f.getPatternChecked a = some (f.getPattern a) ∧
    f.groupMajorDigitsChecked s = some (f.groupMajorDigits s) :=
  ⟨getPatternChecked_eq f a, groupMajorDigitsChecked_eq f s⟩

/-- **C10.** The grouping loop of `groupMajorDigits` terminates whenever the
secondary grouping size is at least 1 (the completion-aware loop finishes
within `i` iterations, and on completion agrees with the loop used by
`groupMajorDigits`); with secondary grouping size 0 and a positive start
index the loop index never decreases, and the loop never completes no
matter how much fuel it is given — the Go function does not terminate. -/
theorem groupMajorDigits_termination :
    (∀ (s : Str) (sec fuel i : Nat), 1 ≤ sec → i ≤ fuel →
      (secondaryGroupsO s sec fuel i).isSome = true) ∧
    (∀ (s : Str) (sec fuel i : Nat) (gs : List Str),
      secondaryGroupsO s sec fuel i = some gs → secondaryGroups s sec fuel i = gs) ∧
    (∀ (s : Str) (fuel i : Nat), 0 < i → secondaryGroupsO s 0 fuel i = none) := by
  refine ⟨fun s sec fuel => ?_, fun s sec fuel => ?_, fun s fuel => ?_⟩
  · induction fuel with
    | zero =>
      intro i hsec hi
      have : i = 0 := by omega
      subst this
      simp [secondaryGroupsO]
    | succ fuel ih =>
      intro i hsec hi
      by_cases h : 0 < i
      · have := ih (i - sec) hsec (by omega)
        cases hrec : secondaryGroupsO s sec fuel (i - sec) with
        | none => rw [hrec] at this; simp at this
        | some gs => simp [secondaryGroupsO, h, hrec]
      · simp [secondaryGroupsO, h]
  · induction fuel with
    | zero =>
      intro i gs h
      by_cases hi : 0 < i
      · simp [secondaryGroupsO, hi] at h
      · have : i = 0 := by omega
        subst this
        simp only [secondaryGroupsO, Nat.lt_irrefl, if_false, Option.some.injEq] at h
        simp [secondaryGroups, ← h]
    | succ fuel ih =>
      intro i gs h
      by_cases hi : 0 < i
      · simp only [secondaryGroupsO, hi, if_true, Option.map_eq_some'] at h
        obtain ⟨gs', hgs', rfl⟩ := h
        simp [secondaryGroups, hi, ih (i - sec) gs' hgs']
      · simp only [secondaryGroupsO, hi, if_false, Option.some.injEq] at h
        simp [secondaryGroups, hi, ← h]
  · induction fuel with
    | zero =>
      intro i hi
      simp [secondaryGroupsO, hi]
    | succ fuel ih =>
      intro i hi
      simp [secondaryGroupsO, hi, ih i hi]

/-- **C1.** With grouping enabled (`NoGrouping` false, non-zero primary
grouping size; the loop's precondition `secondaryGroupingSize ≥ 1`, which
every bound rule set satisfies): an integer-part digit string shorter than
`minGroupingDigits + primaryGroupingSize` is returned unchanged; otherwise
the output is the input's characters in order, joined from a group list by
the grouping separator, where the rightmost group has exactly
`primaryGroupingSize` characters, every group strictly between the leftmost
and the rightmost has exactly `secondaryGroupingSize`, and the leftmost
group has between 1 and `secondaryGroupingSize` characters whenever it is
not itself the rightmost group. -/
theorem groupMajorDigits_grouping (f : Formatter) (s : Str)
    (hng : f.NoGrouping = false) (hp : f.format.primaryGroupingSize ≠ 0)
    (hsec : 1 ≤ f.format.secondaryGroupingSize) :
    (s.length < f.format.minGroupingDigits + f.format.primaryGroupingSize →
      f.groupMajorDigits s = s) ∧
    (f.format.minGroupingDigits + f.format.primaryGroupingSize ≤ s.length →
      ∃ g0 grest,
        f.groupMajorDigits s =
          List.intercalate f.format.groupingSeparator (g0 :: grest) ∧
        (g0 :: grest).flatten = s ∧
        ((g0 :: grest).getLast (List.cons_ne_nil g0 grest)).length =
          f.format.primaryGroupingSize ∧
        (∀ g ∈ grest.dropLast, g.length = f.format.secondaryGroupingSize) ∧
        (grest ≠ [] →
          1 ≤ g0.length ∧ g0.length ≤ f.format.secondaryGroupingSize)) := by
  have hoff : (f.NoGrouping || f.format.primaryGroupingSize == 0) = false := by
    simp [hng, hp]
  constructor
  · intro hshort
    rw [Formatter.groupMajorDigits, hoff]
    simp [hshort]
  · intro hlong
    rw [Formatter.groupMajorDigits, hoff]
    simp only [Bool.false_eq_true, if_false]
    rw [if_neg (Nat.not_lt.2 hlong)]
    set n := s.length with hn
    set prim := f.format.primaryGroupingSize with hprim
    set sec := f.format.secondaryGroupingSize with hsecd
    set first := goSlice s (n - prim) n with hfirst
    set L := secondaryGroups s sec n (n - prim) with hL
    have hprimle : prim ≤ n := by omega
    have htaken : List.take n s = s := by
      rw [hn]
      exact List.take_length s
    have hfirst_drop : first = s.drop (n - prim) := by
      rw [hfirst, goSlice, htaken]
    have hfirst_len : first.length = prim := by
      rw [hfirst, goSlice_length _ (Nat.le_refl _)]
      omega
    obtain ⟨ihA, ihB, ihC, ihD⟩ :=
      secondaryGroups_spec s sec hsec n (n - prim) (Nat.sub_le _ _) (Nat.sub_le _ _)
    rw [← hL] at ihA ihB ihC ihD
    by_cases hLnil : L = []
    · have hi0 : n - prim = 0 := by
        by_contra hne
        exact (ihD (by omega)) hLnil
      refine ⟨first, [], ?_, ?_, ?_, by simp, by simp⟩
      · rw [hLnil]
        rfl
      · simp [hfirst_drop, hi0]
      · simp [hfirst_len]
    · obtain ⟨g0, t, hrev⟩ := List.exists_cons_of_ne_nil
        (fun h => hLnil (List.reverse_eq_nil_iff.1 h))
      have hgroups : (first :: L).reverse = g0 :: (t ++ [first]) := by
        rw [List.reverse_cons, hrev]
        rfl
      have hlast : L.getLast? = some g0 := by
        rw [← List.head?_reverse, hrev, List.head?_cons]
      have htL : t = L.dropLast.reverse := by
        have hLr : L = t.reverse ++ [g0] := by
          have := congrArg List.reverse hrev
          simpa using this
        rw [hLr, List.dropLast_concat, List.reverse_reverse]
      refine ⟨g0, t ++ [first], ?_, ?_, ?_, ?_, ?_⟩
      · rw [hgroups]
      · have hback : g0 :: (t ++ [first]) = L.reverse ++ [first] := by
          rw [hrev]
          rfl
        rw [hback, List.flatten_append, ihA]
        simp [hfirst_drop]
      · have hsplit2 : (g0 :: (t ++ [first])) = (g0 :: t) ++ [first] := by simp
        rw [List.getLast_congr _ _ hsplit2, List.getLast_concat]
        exact hfirst_len
      · intro g hg
        rw [List.dropLast_concat, htL, List.mem_reverse] at hg
        exact ihB g hg
      · intro _
        exact ihC g0 hlast

/-! ### Splitting the rounded decimal string (C2 infrastructure) -/

theorem splitOn_eq_single_of_not_mem {ch : Char} {s : Str} (h : ch ∉ s) :
    s.splitOn ch = [s] :=
  List.splitOnP_eq_single _ _ fun x hx => by
    simp only [beq_iff_eq]
    rintro rfl
    exact h hx

theorem splitOn_append_cons {ch : Char} {A : Str} (B : Str) (h : ch ∉ A) :
    (A ++ ch :: B).splitOn ch = A :: B.splitOn ch :=
  List.splitOnP_first _ _
    (fun x hx => by
      simp only [beq_iff_eq]
      rintro rfl
      exact h hx)
    ch (by simp) B

theorem Amount.RoundTo_scale (a : Amount) (d : Nat) : (a.RoundTo d).scale = d := by
  rw [Amount.RoundTo]
  split <;> rfl

theorem Amount.RoundTo_code (a : Amount) (d : Nat) :
    (a.RoundTo d).currencyCode = a.currencyCode := by
  rw [Amount.RoundTo]
  split <;> rfl

theorem Amount.Number_splitOn (a : Amount) :
    a.Number.splitOn '.' =
      if a.scale = 0 then [a.intDigits] else [a.intDigits, a.fracDigits] := by
  rw [Amount.Number]
  by_cases h : a.scale = 0
  · rw [if_pos h, if_pos h, List.append_nil]
    exact splitOn_eq_single_of_not_mem (dot_not_mem_intDigits a)
  · rw [if_neg h, if_neg h, splitOn_append_cons _ (dot_not_mem_intDigits a),
      splitOn_eq_single_of_not_mem (dot_not_mem_fracDigits a)]

theorem trimTrailingZeros_eq_nil {s : Str} (h : ∀ ch ∈ s, ch = '0') :
    trimTrailingZeros s = [] := by
  rw [trimTrailingZeros, List.reverse_eq_nil_iff, List.dropWhile_eq_nil_iff]
  intro x hx
  simp [h x (List.mem_reverse.1 hx)]

theorem fracDigits_scale_zero {a : Amount} (h : a.scale = 0) : a.fracDigits = [] := by
  rw [Amount.fracDigits, h]
  rfl

/-- **C2.** `formatNumber` rounds to the effective max digits and then:
when effective min < effective max, the fractional part is the rounded
fractional digits with trailing zeroes stripped and then zeroes re-appended
up to the effective min; otherwise the fractional part is exactly the
rounded fractional digits; in all cases the decimal separator appears
exactly when the resulting fractional part is non-empty — in particular an
effective min of 0 with an all-zero rounded fraction yields no fractional
part and no separator. -/
theorem formatNumber_trim_pad (c : Collab) (f : Formatter) (a : Amount) :
    (f.formatNumber c a =
      f.localizeDigits (f.groupMajorDigits (a.RoundTo (effMaxDigits c f a)).intDigits ++
        if minorDigitsSpec c f a = [] then []
        else f.format.decimalSeparator ++ minorDigitsSpec c f a)) ∧
    (effMinDigits c f a = 0 →
      (∀ ch ∈ (a.RoundTo (effMaxDigits c f a)).fracDigits, ch = '0') →
      f.formatNumber c a =
        f.localizeDigits (f.groupMajorDigits (a.RoundTo (effMaxDigits c f a)).intDigits)) := by
  have hmain : f.formatNumber c a =
      f.localizeDigits (f.groupMajorDigits (a.RoundTo (effMaxDigits c f a)).intDigits ++
        if minorDigitsSpec c f a = [] then []
        else f.format.decimalSeparator ++ minorDigitsSpec c f a) := by
    rw [Formatter.formatNumber]
    simp only [minorDigitsSpec, effMinDigits, effMaxDigits]
    set maxD := if f.MaxDigits = DefaultDigits
      then (c.GetDigits a.currencyCode).1 else f.MaxDigits with hmaxD
    have hsplit := (a.RoundTo maxD).Number_splitOn
    rw [Amount.RoundTo_scale] at hsplit
    by_cases hz : maxD = 0
    · rw [hsplit, if_pos hz]
      have hfrac : (a.RoundTo maxD).fracDigits = [] :=
        fracDigits_scale_zero (by rw [Amount.RoundTo_scale, hz])
      have hfrac0 : (a.RoundTo 0).fracDigits = [] :=
        fracDigits_scale_zero (Amount.RoundTo_scale a 0)
      simp [hz, hfrac, hfrac0]
    · rw [hsplit, if_neg hz]
      simp
  refine ⟨hmain, fun hmin hzero => ?_⟩
  have hminor : minorDigitsSpec c f a = [] := by
    rw [minorDigitsSpec]
    by_cases hlt : effMinDigits c f a < effMaxDigits c f a
    · have ht : trimTrailingZeros (a.RoundTo (effMaxDigits c f a)).fracDigits = [] :=
        trimTrailingZeros_eq_nil hzero
      simp only [hlt, ht, hmin, if_true]
      rw [if_pos (show 0 < effMaxDigits c f a by omega)]
      simp
    · have hmax : effMaxDigits c f a = 0 := by omega
      have hfrac : (a.RoundTo (effMaxDigits c f a)).fracDigits = [] :=
        fracDigits_scale_zero (by rw [Amount.RoundTo_scale, hmax])
      simp [hlt, hfrac]
  rw [hmain, hminor]
  simp

/-! ### Negation and pattern selection (C3) -/

theorem Amount.MulNegOne_code (a : Amount) : a.MulNegOne.currencyCode = a.currencyCode :=
  rfl

theorem Amount.MulNegOne_MulNegOne (a : Amount) : a.MulNegOne.MulNegOne = a := by
  simp [Amount.MulNegOne]

theorem Amount.MulNegOne_of_zero {a : Amount} (h : a.number = 0) : a.MulNegOne = a := by
  cases a
  simp_all [Amount.MulNegOne]

/-- **C3.** `Format` renders a negative amount by selecting the pattern for
the negative amount and negating (multiplying by `-1`) before number
formatting: for a non-negative amount `a`, rendering `-a` substitutes into
the pattern chosen for `-a` exactly the same formatted magnitude
(`formatNumber` of `a`) and formatted currency as rendering `a` does into
the pattern chosen for `a` — the rendered magnitude (grouping, decimal
part) is identical, only the sign glyph and its pattern placement can
differ. -/
theorem Format_negation (c : Collab) (f : Formatter) (a : Amount)
    (h : a.IsNegative = false) :
    f.Format c a.MulNegOne =
      f.renderPattern (f.getPattern a.MulNegOne) (f.formatNumber c a)
        (f.formatCurrency c a.currencyCode) ∧
    f.Format c a =
      f.renderPattern (f.getPattern a) (f.formatNumber c a)
        (f.formatCurrency c a.currencyCode) := by
  have hsecond : f.Format c a =
      f.renderPattern (f.getPattern a) (f.formatNumber c a)
        (f.formatCurrency c a.currencyCode) := by
    rw [Formatter.Format]
    simp [h]
  refine ⟨?_, hsecond⟩
  by_cases hz : a.number = 0
  · rw [Amount.MulNegOne_of_zero hz, hsecond]
  · have hpos : 0 < a.number := by
      rw [Amount.IsNegative] at h
      simp only [decide_eq_false_iff_not, Int.not_lt] at h
      omega
    have hneg : a.MulNegOne.IsNegative = true := by
      simp only [Amount.IsNegative, Amount.MulNegOne, decide_eq_true_eq]
      omega
    rw [Formatter.Format]
    simp [hneg, Amount.MulNegOne_MulNegOne]

/-! ### Currency display modes (C5) -/

/-- **C5.** `formatCurrency` in `symbol` mode consults the per-formatter
`SymbolMap` first (exact currency-code match) and otherwise falls back to
the symbol metadata for the code and the originally requested locale; in
`code` mode it returns the currency code verbatim; in `none` mode — or for
any other out-of-range display value — it returns the empty string rather
than failing. -/
theorem formatCurrency_modes (c : Collab) (f : Formatter) (code : Str) :
    (f.CurrencyDisplay = DisplaySymbol →
      (∀ sym, f.SymbolMap code = some sym → f.formatCurrency c code = sym) ∧
      (f.SymbolMap code = none →
        f.formatCurrency c code = (c.GetSymbol code f.locale).1)) ∧
    (f.CurrencyDisplay = DisplayCode → f.formatCurrency c code = code) ∧
    (f.CurrencyDisplay ≠ DisplaySymbol → f.CurrencyDisplay ≠ DisplayCode →
      f.formatCurrency c code = []) := by
  refine ⟨fun h => ⟨fun sym hs => ?_, fun hn => ?_⟩, fun h => ?_, fun h1 h2 => ?_⟩
  · rw [Formatter.formatCurrency, if_pos h, hs]
  · rw [Formatter.formatCurrency, if_pos h, hn]
  · have hns : f.CurrencyDisplay ≠ DisplaySymbol := by
      rw [h]
      decide
    rw [Formatter.formatCurrency, if_neg hns, if_pos h]
  · rw [Formatter.formatCurrency, if_neg h1, if_neg h2]

/-! ### Trimming dangling white space (C7) -/

theorem head?_dropWhile {p : Char → Bool} {l : Str} {ch : Char}
    (h : (l.dropWhile p).head? = some ch) : p ch = false := by
  induction l with
  | nil => simp [List.dropWhile] at h
  | cons a t ih =>
    rw [List.dropWhile_cons] at h
    by_cases hp : p a
    · rw [if_pos hp] at h
      exact ih h
    · rw [if_neg hp] at h
      simp only [List.head?_cons, Option.some.injEq] at h
      subst h
      simpa using hp

theorem getLast?_dropWhile {p : Char → Bool} {l : Str}
    (h : l.dropWhile p ≠ []) : (l.dropWhile p).getLast? = l.getLast? := by
  induction l with
  | nil => simp [List.dropWhile] at h
  | cons a t ih =>
    rw [List.dropWhile_cons]
    by_cases hp : p a
    · rw [if_pos hp]
      rw [List.dropWhile_cons, if_pos hp] at h
      have htne : t ≠ [] := by
        intro he
        subst he
        simp [List.dropWhile] at h
      obtain ⟨b, t2, rfl⟩ := List.exists_cons_of_ne_nil htne
      rw [List.getLast?_cons_cons]
      exact ih h
    · rw [if_neg hp]

theorem trimSpace_no_space_ends (s : Str) :
    (∀ ch, (trimSpace s).head? = some ch → isSpaceChar ch = false) ∧
    (∀ ch, (trimSpace s).getLast? = some ch → isSpaceChar ch = false) := by
  constructor
  · intro ch h
    rw [trimSpace, List.head?_reverse] at h
    have hne : ((s.dropWhile isSpaceChar).reverse.dropWhile isSpaceChar) ≠ [] := by
      intro he
      rw [he] at h
      simp at h
    rw [getLast?_dropWhile hne, List.getLast?_reverse] at h
    exact head?_dropWhile h
  · intro ch h
    rw [trimSpace, List.getLast?_reverse] at h
    exact head?_dropWhile h

/-- **C7.** When the formatted currency is the empty string (in particular
in display mode `none`), the string `Format` returns has been trimmed of
surrounding white space: it neither starts nor ends with a white-space
character, so no whitespace artifact of the pattern template remains. -/
theorem Format_no_dangling_space (c : Collab) (f : Formatter) (a : Amount)
    (h : f.formatCurrency c a.currencyCode = []) :
    (∀ ch, (f.Format c a).head? = some ch → isSpaceChar ch = false) ∧
    (∀ ch, (f.Format c a).getLast? = some ch → isSpaceChar ch = false) := by
  have hfmt : f.Format c a =
      trimSpace (replaceMulti
        [(str "0.00", f.formatNumber c (if a.IsNegative then a.MulNegOne else a)),
          (str "¤", []), (str "+", f.format.plusSign), (str "-", f.format.minusSign)]
        (f.getPattern a)) := by
    rw [Formatter.Format, Formatter.renderPattern]
    by_cases hneg : a.IsNegative
    · simp only [hneg, if_true]
      rw [Amount.MulNegOne_code, h]
      simp
    · simp only [hneg, if_false, Bool.false_eq_true]
      rw [h]
      simp [hneg]
  rw [hfmt]
  exact trimSpace_no_space_ends _

/-! ### Purity and determinism (C8) -/

/-- **C8.** `Format` is a pure function of the amount and the formatter's
configuration: it returns a string without mutating any formatter field
(the embedding of the Go value receiver), and two calls with the same
amount, the same configuration fields (`locale`, bound rule set,
`NoGrouping`, `MinDigits`, `MaxDigits`, `CurrencyDisplay`, `SymbolMap`) and
the same collaborator data return identical strings. -/
theorem Format_deterministic (c : Collab) (f g : Formatter) (a : Amount)
    (h1 : f.locale = g.locale) (h2 : f.format = g.format)
    (h3 : f.NoGrouping = g.NoGrouping) (h4 : f.MinDigits = g.MinDigits)
    (h5 : f.MaxDigits = g.MaxDigits) (h6 : f.CurrencyDisplay = g.CurrencyDisplay)
    (h7 : f.SymbolMap = g.SymbolMap) :
    f.Format c a = g.Format c a := by
  have : f = g := by
    cases f
    cases g
    simp_all
  rw [this]

/-! ### Constructor fallback resolution (C4) -/

theorem GetParent_region_empty (l : Locale) : l.GetParent.Region = [] := by
  rw [Locale.GetParent]
  split <;> rfl

theorem resolveFormatGo_region_empty (c : Collab) {l : Locale} (h : l.Region = [])
    {fuel : Nat} (hf : 1 ≤ fuel) :
    resolveFormatGo c fuel l = (c.currencyFormats l.ident).getD {} := by
  obtain ⟨k, rfl⟩ : ∃ k, fuel = k + 1 := ⟨fuel - 1, by omega⟩
  have hnorm : normalizeEnUS l = l := by
    rw [normalizeEnUS, if_neg]
    intro he
    rw [he] at h
    simp [enUSLocale, str] at h
  rw [resolveFormatGo]
  simp only [hnorm]
  cases hlook : c.currencyFormats l.ident with
  | some fmt => simp
  | none =>
    have hpar : l.GetParent = {} := by
      rw [Locale.GetParent, if_pos (by simp [h])]
    simp only [hpar, Option.getD_none]
    rw [if_pos]
    rfl

theorem resolveFormatGo_fuel_stable (c : Collab) (l : Locale) {fuel : Nat}
    (hf : 3 ≤ fuel) : resolveFormatGo c fuel l = resolveFormatGo c 3 l := by
  obtain ⟨k, rfl⟩ : ∃ k, fuel = k + 1 := ⟨fuel - 1, by omega⟩
  show resolveFormatGo c (k + 1) l = resolveFormatGo c (2 + 1) l
  rw [resolveFormatGo, resolveFormatGo]
  cases hlook : c.currencyFormats (normalizeEnUS l).ident with
  | some fmt => simp
  | none =>
    simp only []
    by_cases hemp : (normalizeEnUS l).GetParent.IsEmpty
    · rw [if_pos hemp, if_pos hemp]
    · rw [if_neg hemp, if_neg hemp,
        resolveFormatGo_region_empty c (GetParent_region_empty _) (by omega),
        resolveFormatGo_region_empty c (GetParent_region_empty _) (by omega)]

theorem resolveFormatGo_first_hit (c : Collab) (l : Locale) (fmt : currencyFormat)
    (h : c.currencyFormats (normalizeEnUS l).ident = some fmt) :
    resolveFormatGo c 3 l = fmt := by
  rw [show (3 : Nat) = 2 + 1 from rfl, resolveFormatGo, h]

theorem resolveFormatGo_all_miss (c : Collab) (l : Locale)
    (h : ∀ x : Locale, c.currencyFormats x.ident = none) :
    resolveFormatGo c 3 l = {} := by
  rw [show (3 : Nat) = 2 + 1 from rfl, resolveFormatGo, h (normalizeEnUS l)]
  simp only []
  by_cases hemp : (normalizeEnUS l).GetParent.IsEmpty
  · rw [if_pos hemp]
  · rw [if_neg hemp,
      resolveFormatGo_region_empty c (GetParent_region_empty _) (by omega),
      h ((normalizeEnUS l).GetParent), Option.getD_none]

theorem resolveFormatGo_parent_hit (c : Collab) (l : Locale) (fmt : currencyFormat)
    (hmiss : c.currencyFormats (normalizeEnUS l).ident = none)
    (hne : ¬(normalizeEnUS l).GetParent.IsEmpty = true)
    (hhit : c.currencyFormats ((normalizeEnUS l).GetParent).ident = some fmt) :
    resolveFormatGo c 3 l = fmt := by
  rw [show (3 : Nat) = 2 + 1 from rfl, resolveFormatGo, hmiss]
  simp only []
  rw [if_neg hne,
    resolveFormatGo_region_empty c (GetParent_region_empty _) (by omega), hhit,
    Option.getD_some]

theorem resolveFormatGo_chain_miss (c : Collab) (l : Locale)
    (hmiss : c.currencyFormats (normalizeEnUS l).ident = none)
    (hmiss2 : ¬(normalizeEnUS l).GetParent.IsEmpty = true →
      c.currencyFormats ((normalizeEnUS l).GetParent).ident = none) :
    resolveFormatGo c 3 l = {} := by
  rw [show (3 : Nat) = 2 + 1 from rfl, resolveFormatGo, hmiss]
  simp only []
  by_cases hemp : (normalizeEnUS l).GetParent.IsEmpty
  · rw [if_pos hemp]
  · rw [if_neg hemp,
      resolveFormatGo_region_empty c (GetParent_region_empty _) (by omega),
      hmiss2 hemp, Option.getD_none]

/-- **C4.** `NewFormatter` never fails: it stores the originally requested
locale, treats `en-US` identically to bare `en` before lookup, and walks
the parent chain binding the rule set of the first locale identifier found
in the format table: a hit at the normalized requested locale binds it, a
miss followed by a hit at the (non-empty) parent binds the parent's rule
set, and when every lookup along the chain misses — whether the parent is
already empty or the non-empty parent also misses — the zero-value rule
set is left in place and construction still succeeds; the constructor's
loop is insensitive to any fuel of at least 3 (the chain stabilizes within
two parent steps, so the loop always terminates). -/
theorem NewFormatter_total_fallback (c : Collab) (l : Locale) :
    (NewFormatter c l).locale = l ∧
    (NewFormatter c l).format = resolveFormatGo c 3 l ∧
    resolveFormatGo c 3 enUSLocale = resolveFormatGo c 3 enLocale ∧
    (∀ fmt, c.currencyFormats (normalizeEnUS l).ident = some fmt →
      resolveFormatGo c 3 l = fmt) ∧
    (∀ fmt, c.currencyFormats (normalizeEnUS l).ident = none →
      ¬(normalizeEnUS l).GetParent.IsEmpty = true →
      c.currencyFormats ((normalizeEnUS l).GetParent).ident = some fmt →
      resolveFormatGo c 3 l = fmt) ∧
    (c.currencyFormats (normalizeEnUS l).ident = none →
      (¬(normalizeEnUS l).GetParent.IsEmpty = true →
        c.currencyFormats ((normalizeEnUS l).GetParent).ident = none) →
      resolveFormatGo c 3 l = {}) ∧
    (∀ fuel, 3 ≤ fuel → resolveFormatGo c fuel l = resolveFormatGo c 3 l) := by
  refine ⟨rfl, rfl, ?_, resolveFormatGo_first_hit c l,
    fun fmt hmiss hne hhit => resolveFormatGo_parent_hit c l fmt hmiss hne hhit,
    resolveFormatGo_chain_miss c l,
    fun fuel hf => resolveFormatGo_fuel_stable c l hf⟩
  have h1 : normalizeEnUS enUSLocale = enLocale := by
    rw [normalizeEnUS, if_pos rfl]
  have h2 : normalizeEnUS enLocale = enLocale := by
    rw [normalizeEnUS, if_neg (by decide)]
  conv_lhs => rw [show (3 : Nat) = 2 + 1 from rfl, resolveFormatGo, h1]
  conv_rhs => rw [show (3 : Nat) = 2 + 1 from rfl, resolveFormatGo, h2]

/-! ### Digit localization (C6) -/

theorem char_toNat_inj {a b : Char} (h : a.toNat = b.toNat) : a = b :=
  Char.eq_of_val_eq (UInt32.ext h)

theorem char_digit_cases (c : Char) :
    c = '0' ∨ c = '1' ∨ c = '2' ∨ c = '3' ∨ c = '4' ∨ c = '5' ∨ c = '6' ∨
    c = '7' ∨ c = '8' ∨ c = '9' ∨ ¬(48 ≤ c.toNat ∧ c.toNat ≤ 57) := by
  by_cases h : 48 ≤ c.toNat ∧ c.toNat ≤ 57
  · obtain ⟨h1, h2⟩ := h
    obtain ⟨n, hn⟩ : ∃ n, c.toNat = n := ⟨_, rfl⟩
    rw [hn] at h1 h2
    interval_cases n <;>
      first
      | (have hc : c = '0' := char_toNat_inj hn; tauto)
      | (have hc : c = '1' := char_toNat_inj hn; tauto)
      | (have hc : c = '2' := char_toNat_inj hn; tauto)
      | (have hc : c = '3' := char_toNat_inj hn; tauto)
      | (have hc : c = '4' := char_toNat_inj hn; tauto)
      | (have hc : c = '5' := char_toNat_inj hn; tauto)
      | (have hc : c = '6' := char_toNat_inj hn; tauto)
      | (have hc : c = '7' := char_toNat_inj hn; tauto)
      | (have hc : c = '8' := char_toNat_inj hn; tauto)
      | (have hc : c = '9' := char_toNat_inj hn; tauto)
  · tauto

theorem findRep_digits (g0 g1 g2 g3 g4 g5 g6 g7 g8 g9 c : Char) (rest : Str) :
    findRep (digitReplacements [g0, g1, g2, g3, g4, g5, g6, g7, g8, g9]) (c :: rest) =
      if 48 ≤ c.toNat ∧ c.toNat ≤ 57 then
        some ([c], [[g0, g1, g2, g3, g4, g5, g6, g7, g8, g9].getD (c.toNat - 48) c])
      else none := by
  have hpairs : digitReplacements [g0, g1, g2, g3, g4, g5, g6, g7, g8, g9] =
      [(['0'], [g0]), (['1'], [g1]), (['2'], [g2]), (['3'], [g3]), (['4'], [g4]),
        (['5'], [g5]), (['6'], [g6]), (['7'], [g7]), (['8'], [g8]), (['9'], [g9])] := rfl
  rcases char_digit_cases c with rfl | rfl | rfl | rfl | rfl | rfl | rfl | rfl | rfl | rfl | h
  case inr.inr.inr.inr.inr.inr.inr.inr.inr.inr =>
    have h0 : ('0' == c) = false := by
      rw [beq_eq_false_iff_ne]
      rintro rfl
      exact h (by decide)
    have h1 : ('1' == c) = false := by
      rw [beq_eq_false_iff_ne]
      rintro rfl
      exact h (by decide)
    have h2 : ('2' == c) = false := by
      rw [beq_eq_false_iff_ne]
      rintro rfl
      exact h (by decide)
    have h3 : ('3' == c) = false := by
      rw [beq_eq_false_iff_ne]
      rintro rfl
      exact h (by decide)
    have h4 : ('4' == c) = false := by
      rw [beq_eq_false_iff_ne]
      rintro rfl
      exact h (by decide)
    have h5 : ('5' == c) = false := by
      rw [beq_eq_false_iff_ne]
      rintro rfl
      exact h (by decide)
    have h6 : ('6' == c) = false := by
      rw [beq_eq_false_iff_ne]
      rintro rfl
      exact h (by decide)
    have h7 : ('7' == c) = false := by
      rw [beq_eq_false_iff_ne]
      rintro rfl
      exact h (by decide)
    have h8 : ('8' == c) = false := by
      rw [beq_eq_false_iff_ne]
      rintro rfl
      exact h (by decide)
    have h9 : ('9' == c) = false := by
      rw [beq_eq_false_iff_ne]
      rintro rfl
      exact h (by decide)
    rw [findRep, hpairs, if_neg h]
    simp [List.find?, List.isPrefixOf, h0, h1, h2, h3, h4, h5, h6, h7, h8, h9]
  all_goals
    rw [findRep, hpairs, if_pos (by decide)]
    simp [List.find?, List.isPrefixOf, List.getD]

theorem replaceMultiGo_digitMap (g0 g1 g2 g3 g4 g5 g6 g7 g8 g9 : Char) :
    ∀ fuel s, s.length ≤ fuel →
      replaceMultiGo (digitReplacements [g0, g1, g2, g3, g4, g5, g6, g7, g8, g9]) fuel s =
        s.map (fun ch => if 48 ≤ ch.toNat ∧ ch.toNat ≤ 57 then
          [g0, g1, g2, g3, g4, g5, g6, g7, g8, g9].getD (ch.toNat - 48) ch else ch) := by
  intro fuel
  induction fuel with
  | zero =>
    intro s hs
    have : s = [] := List.length_eq_zero.1 (by omega)
    subst this
    rfl
  | succ fuel ih =>
    intro s hs
    cases s with
    | nil => rfl
    | cons ch rest =>
      have hrest : rest.length ≤ fuel := by
        simp only [List.length_cons] at hs
        omega
      show (match findRep (digitReplacements [g0, g1, g2, g3, g4, g5, g6, g7, g8, g9])
          (ch :: rest) with
        | some pr => pr.2 ++ replaceMultiGo _ fuel ((ch :: rest).drop pr.1.length)
        | none => ch :: replaceMultiGo _ fuel rest) = _
      rw [findRep_digits]
      by_cases hd : 48 ≤ ch.toNat ∧ ch.toNat ≤ 57
      · rw [if_pos hd]
        simp [hd, ih rest hrest]
      · rw [if_neg hd]
        simp [hd, ih rest hrest]

theorem replaceMulti_digitMap (g0 g1 g2 g3 g4 g5 g6 g7 g8 g9 : Char) (s : Str) :
    replaceMulti (digitReplacements [g0, g1, g2, g3, g4, g5, g6, g7, g8, g9]) s =
      s.map (fun ch => if 48 ≤ ch.toNat ∧ ch.toNat ≤ 57 then
        [g0, g1, g2, g3, g4, g5, g6, g7, g8, g9].getD (ch.toNat - 48) ch else ch) :=
  replaceMultiGo_digitMap g0 g1 g2 g3 g4 g5 g6 g7 g8 g9 s.length s (Nat.le_refl _)

theorem map_subst_no_digit (table : List Char) (hlen : table.length = 10)
    (htab : ∀ g ∈ table, ¬(48 ≤ g.toNat ∧ g.toNat ≤ 57)) (s : Str) :
    ∀ ch ∈ s.map (fun ch => if 48 ≤ ch.toNat ∧ ch.toNat ≤ 57 then
        table.getD (ch.toNat - 48) ch else ch),
      ¬(48 ≤ ch.toNat ∧ ch.toNat ≤ 57) := by
  intro ch hch
  obtain ⟨orig, _, rfl⟩ := List.mem_map.1 hch
  by_cases hd : 48 ≤ orig.toNat ∧ orig.toNat ≤ 57
  · rw [if_pos hd]
    have hidx : orig.toNat - 48 < table.length := by omega
    refine htab _ ?_
    rw [List.getD_eq_getElem table orig hidx]
    exact List.getElem_mem hidx
  · rw [if_neg hd]
    exact hd

/-- **C6.** `localizeDigits` is the identity when the numbering system is
Western Arabic (`numLatn`); otherwise it maps each character one-for-one,
replacing each ASCII digit `0`–`9` with the corresponding glyph of the
numbering system's 10-glyph table and leaving every non-digit character
unchanged, and the output contains no ASCII digit characters at all. -/
theorem localizeDigits_substitution (f : Formatter) (s : Str) :
    (f.format.numberingSystem = numLatn → f.localizeDigits s = s) ∧
    (f.format.numberingSystem ≠ numLatn →
      f.localizeDigits s =
        s.map (fun ch => if 48 ≤ ch.toNat ∧ ch.toNat ≤ 57 then
          ((localDigits f.format.numberingSystem).getD []).getD (ch.toNat - 48) ch
          else ch) ∧
      ∀ ch ∈ f.localizeDigits s, ¬(48 ≤ ch.toNat ∧ ch.toNat ≤ 57)) := by
  constructor
  · intro h
    rw [Formatter.localizeDigits, if_pos h]
  · intro h
    cases hns : f.format.numberingSystem with
    | numLatn => exact absurd hns h
    | numArab =>
      have htab : (localDigits numArab).getD [] =
          ['٠', '١', '٢', '٣', '٤', '٥', '٦', '٧', '٨', '٩'] := rfl
      have hloc : f.localizeDigits s =
          replaceMulti (digitReplacements
            ['٠', '١', '٢', '٣', '٤', '٥', '٦', '٧', '٨', '٩']) s := by
        rw [Formatter.localizeDigits, hns, if_neg (by decide), htab]
      refine ⟨?_, ?_⟩
      · rw [hloc, replaceMulti_digitMap]
        simp only [htab]
      · rw [hloc, replaceMulti_digitMap]
        exact map_subst_no_digit _ (by decide) (by decide) s
    | numArabExt =>
      have htab : (localDigits numArabExt).getD [] =
          ['۰', '۱', '۲', '۳', '۴', '۵', '۶', '۷', '۸', '۹'] := rfl
      have hloc : f.localizeDigits s =
          replaceMulti (digitReplacements
            ['۰', '۱', '۲', '۳', '۴', '۵', '۶', '۷', '۸', '۹']) s := by
        rw [Formatter.localizeDigits, hns, if_neg (by decide), htab]
      refine ⟨?_, ?_⟩
      · rw [hloc, replaceMulti_digitMap]
        simp only [htab]
      · rw [hloc, replaceMulti_digitMap]
        exact map_subst_no_digit _ (by decide) (by decide) s
    | numBeng =>
      have htab : (localDigits numBeng).getD [] =
          ['০', '১', '২', '৩', '৪', '৫', '৬', '৭', '৮', '৯'] := rfl
      have hloc : f.localizeDigits s =
          replaceMulti (digitReplacements
            ['০', '১', '২', '৩', '৪', '৫', '৬', '৭', '৮', '৯']) s := by
        rw [Formatter.localizeDigits, hns, if_neg (by decide), htab]
      refine ⟨?_, ?_⟩
      · rw [hloc, replaceMulti_digitMap]
        simp only [htab]
      · rw [hloc, replaceMulti_digitMap]
        exact map_subst_no_digit _ (by decide) (by decide) s
    | numDeva =>
      have htab : (localDigits numDeva).getD [] =
          ['०', '१', '२', '३', '४', '५', '६', '७', '८', '९'] := rfl
      have hloc : f.localizeDigits s =
          replaceMulti (digitReplacements
            ['०', '१', '२', '३', '४', '५', '६', '७', '८', '९']) s := by
        rw [Formatter.localizeDigits, hns, if_neg (by decide), htab]
      refine ⟨?_, ?_⟩
      · rw [hloc, replaceMulti_digitMap]
        simp only [htab]
      · rw [hloc, replaceMulti_digitMap]
        exact map_subst_no_digit _ (by decide) (by decide) s
    | numMymr =>
      have htab : (localDigits numMymr).getD [] =
          ['၀', '၁', '၂', '၃', '၄', '၅', '၆', '၇', '၈', '၉'] := rfl
      have hloc : f.localizeDigits s =
          replaceMulti (digitReplacements
            ['၀', '၁', '၂', '၃', '၄', '၅', '၆', '၇', '၈', '၉']) s := by
        rw [Formatter.localizeDigits, hns, if_neg (by decide), htab]
      refine ⟨?_, ?_⟩
      · rw [hloc, replaceMulti_digitMap]
        simp only [htab]
      · rw [hloc, replaceMulti_digitMap]
        exact map_subst_no_digit _ (by decide) (by decide) s
    | numTibt =>
      have htab : (localDigits numTibt).getD [] =
          ['༠', '༡', '༢', '༣', '༤', '༥', '༦', '༧', '༨', '༩'] := rfl
      have hloc : f.localizeDigits s =
          replaceMulti (digitReplacements
            ['༠', '༡', '༢', '༣', '༤', '༥', '༦', '༧', '༨', '༩']) s := by
        rw [Formatter.localizeDigits, hns, if_neg (by decide), htab]
      refine ⟨?_, ?_⟩
      · rw [hloc, replaceMulti_digitMap]
        simp only [htab]
      · rw [hloc, replaceMulti_digitMap]
        exact map_subst_no_digit _ (by decide) (by decide) s

/-! ### Concrete witnesses -/

/-- C1 at a concrete input: grouping `"1234567"` with primary and secondary
size 3 yields separator-joined groups whose rightmost group has 3 digits. -/
theorem groupMajorDigits_grouping_witness :
    ∃ g0 grest,
      demoFormatter.groupMajorDigits (str "1234567") =
        List.intercalate demoFormatter.format.groupingSeparator (g0 :: grest) ∧
      (g0 :: grest).flatten = str "1234567" ∧
      ((g0 :: grest).getLast (List.cons_ne_nil g0 grest)).length =
        demoFormatter.format.primaryGroupingSize ∧
      (∀ g ∈ grest.dropLast, g.length = demoFormatter.format.secondaryGroupingSize) ∧
      (grest ≠ [] →
        1 ≤ g0.length ∧ g0.length ≤ demoFormatter.format.secondaryGroupingSize) :=
  (groupMajorDigits_grouping demoFormatter (str "1234567") rfl (by decide)
    (by decide)).2 (by decide)

/-- C2 at a concrete input: `MinDigits = 0`, `MaxDigits = 2` on exactly
10.00 USD yields no fractional part and no decimal separator. -/
theorem formatNumber_trim_pad_witness :
    trimFormatter.formatNumber demoCollab demoTen = str "10" := by
  have h := (formatNumber_trim_pad demoCollab trimFormatter demoTen).2
    (by decide) (by decide)
  rw [h]
  decide

/-- C3 at a concrete input: rendering -1234.50 USD and 1234.50 USD
substitutes the same formatted magnitude into the respective patterns. -/
theorem Format_negation_witness :
    demoFormatter.Format demoCollab demoAmount.MulNegOne =
      demoFormatter.renderPattern (demoFormatter.getPattern demoAmount.MulNegOne)
        (demoFormatter.formatNumber demoCollab demoAmount)
        (demoFormatter.formatCurrency demoCollab demoAmount.currencyCode) ∧
    demoFormatter.Format demoCollab demoAmount =
      demoFormatter.renderPattern (demoFormatter.getPattern demoAmount)
        (demoFormatter.formatNumber demoCollab demoAmount)
        (demoFormatter.formatCurrency demoCollab demoAmount.currencyCode) :=
  Format_negation demoCollab demoFormatter demoAmount (by decide)

/-- C4 at concrete inputs: the `en-US` request binds the table's `en` rule
set immediately; a `fr-FR` request misses and falls back to the table's
`fr` rule set via the parent chain; an `en-US` request against a table
holding only `fr` walks the chain to the empty locale and is left with the
zero-value rule set; and with an empty table the same happens. -/
theorem NewFormatter_total_fallback_witness :
    resolveFormatGo demoCollab 3 enUSLocale = usdFormat ∧
    resolveFormatGo frCollab 3 frFRLocale = frFormat ∧
    resolveFormatGo frCollab 3 enUSLocale = {} ∧
    resolveFormatGo emptyCollab 3 enUSLocale = {} :=
  ⟨(NewFormatter_total_fallback demoCollab enUSLocale).2.2.2.1 usdFormat (by decide),
    (NewFormatter_total_fallback frCollab frFRLocale).2.2.2.2.1 frFormat
      (by decide) (by decide) (by decide),
    (NewFormatter_total_fallback frCollab enUSLocale).2.2.2.2.2.1
      (by decide) (fun _ => by decide),
    (NewFormatter_total_fallback emptyCollab enUSLocale).2.2.2.2.2.1
      rfl (fun _ => rfl)⟩

/-- C5 at concrete inputs: the three display modes on code `"USD"`. -/
theorem formatCurrency_modes_witness :
    demoFormatter.formatCurrency demoCollab (str "USD") = str "$" ∧
    Formatter.formatCurrency demoCollab
      { demoFormatter with CurrencyDisplay := DisplayCode } (str "USD") = str "USD" ∧
    noneFormatter.formatCurrency demoCollab (str "USD") = [] :=
  ⟨((formatCurrency_modes demoCollab demoFormatter (str "USD")).1 rfl).2 rfl,
    (formatCurrency_modes demoCollab
      { demoFormatter with CurrencyDisplay := DisplayCode } (str "USD")).2.1 rfl,
    (formatCurrency_modes demoCollab noneFormatter (str "USD")).2.2
      (by decide) (by decide)⟩

/-- C6 at concrete inputs: Western Arabic is the identity, and Devanagari
rendering of `"1234"` replaces every digit with no ASCII digit left. -/
theorem localizeDigits_substitution_witness :
    demoFormatter.localizeDigits (str "1,234.50") = str "1,234.50" ∧
    devaFormatter.localizeDigits (str "1234") = str "१२३४" ∧
    (∀ ch ∈ devaFormatter.localizeDigits (str "1234"),
      ¬(48 ≤ ch.toNat ∧ ch.toNat ≤ 57)) := by
  have h1 := (localizeDigits_substitution demoFormatter (str "1,234.50")).1 rfl
  have h2 := (localizeDigits_substitution devaFormatter (str "1234")).2 (by decide)
  refine ⟨h1, ?_, h2.2⟩
  rw [h2.1]
  decide

/-- C7 at a concrete input: display mode `none` leaves no leading space
from the pattern (the rendered string starts with the digit `1`). -/
theorem Format_no_dangling_space_witness : isSpaceChar '1' = false :=
  (Format_no_dangling_space demoCollab noneFormatter demoAmount rfl).1 '1' (by decide)

/-- C8 at a concrete input: a freshly constructed formatter with the same
configuration as the demo formatter renders the same string. -/
theorem Format_deterministic_witness :
    Formatter.Format demoCollab (NewFormatter demoCollab enUSLocale) demoAmount =
      demoFormatter.Format demoCollab demoAmount :=
  Format_deterministic demoCollab (NewFormatter demoCollab enUSLocale) demoFormatter
    demoAmount rfl (by decide) rfl rfl rfl rfl rfl

/-- C10 at concrete inputs: with secondary size 3 the loop completes and
yields the loop's groups; with secondary size 0 it never completes. -/
theorem groupMajorDigits_termination_witness :
    (secondaryGroupsO (str "1234567") 3 7 4).isSome = true ∧
    secondaryGroups (str "1234567") 3 7 4 = [str "234", str "1"] ∧
    secondaryGroupsO (str "1234567") 0 50 4 = none :=
  ⟨groupMajorDigits_termination.1 (str "1234567") 3 7 4 (by decide) (by decide),
    groupMajorDigits_termination.2.1 (str "1234567") 3 7 4 [str "234", str "1"]
      (by decide),
    groupMajorDigits_termination.2.2 (str "1234567") 50 4 (by decide)⟩

end Currency
